import Mathlib

/-!
Verification of the transcript stabilization, session management, enrichment
and sentiment pipeline of the zoom-clone captioning feature set.

The TypeScript sources are shallowly embedded:
* text is `List Char`; wall-clock times (`Date.getTime()`) are `Int` milliseconds;
* JavaScript numbers holding confidences and emotion channels are `ℚ`;
* the throttling/merging machinery of `useCaptions` (mutable refs plus React
  state) becomes an explicit state record `CaptionsState` and a step function
  over recognition events; `setTimeout` becomes a recorded deadline that an
  explicit time-passage transition fires;
* remote HTTP calls are external collaborators: their outcome (network error,
  bad status, parsed body) is an explicit parameter of the embedded function.
-/

/-! ## JavaScript string primitives used by the sources -/

/-- The whitespace class matched by the regexes `/\s+/` used in the sources
(space, tab, newline, carriage return, vertical tab, form feed; exotic
Unicode space code points are not exercised by the repository). -/
def jsWhitespace (c : Char) : Bool :=
  c = ' ' || c = '\t' || c = '\n' || c = '\r' || c = '\x0b' || c = '\x0c'

theorem length_dropWhile_le {α : Type} (p : α → Bool) (l : List α) :
    (l.dropWhile p).length ≤ l.length := by
  induction l with
  | nil => simp [List.dropWhile]
  | cons a t ih =>
    simp only [List.dropWhile]
    cases p a
    · simp
    · simp
      omega

/-- Worker for `splitWS`: JavaScript `text.split(/\s+/)` semantics (each
maximal whitespace run is a separator; a leading/trailing run contributes an
empty field). -/
def splitWSGo (acc : List Char) : List Char → List (List Char)
  | [] => [acc.reverse]
  | c :: rest =>
    if jsWhitespace c then
      acc.reverse :: splitWSGo [] (rest.dropWhile jsWhitespace)
    else
      splitWSGo (c :: acc) rest
termination_by l => l.length
decreasing_by
  · have := length_dropWhile_le jsWhitespace rest
    simp only [List.length_cons]
    omega
  · simp only [List.length_cons]
    omega

/-- JavaScript `text.split(/\s+/)` as used for the word count in
`useCaptions` (`finalEntry.text.split(/\s+/).length`). -/
def splitWS (cs : List Char) : List (List Char) :=
  splitWSGo [] cs

/-- JavaScript `text.replace(/\s+/g, ' ')`: every maximal whitespace run is
replaced by a single space. -/
def collapseWS : List Char → List Char
  | [] => []
  | c :: rest =>
    if jsWhitespace c then
      ' ' :: collapseWS (rest.dropWhile jsWhitespace)
    else
      c :: collapseWS rest
termination_by l => l.length
decreasing_by
  · have := length_dropWhile_le jsWhitespace rest
    simp only [List.length_cons]
    omega
  · simp only [List.length_cons]
    omega

/-- JavaScript `text.trim()`: strip leading and trailing whitespace. -/
def trimWS (cs : List Char) : List Char :=
  ((cs.dropWhile jsWhitespace).reverse.dropWhile jsWhitespace).reverse

/-- JavaScript `haystack.includes(needle)`: substring containment. -/
def containsSub (pat : List Char) : List Char → Bool
  | [] => pat.isEmpty
  | c :: rest => pat.isPrefixOf (c :: rest) || containsSub pat rest

/-- JavaScript `array.slice(-n)`: the last `n` elements (the whole list when
it is shorter than `n`). -/
def lastN {α : Type} (n : Nat) (l : List α) : List α :=
  l.drop (l.length - n)

/-- JavaScript `x || d` for an optional numeric field `x`: the default is
used when the field is absent or equal to `0` (falsy). -/
def jsNumOr (x : Option ℚ) (d : ℚ) : ℚ :=
  match x with
  | none => d
  | some v => if v = 0 then d else v

/-! ## Sentiment data model (lib/nvidia-nim/sentiment.ts) -/

/-- The `overall` polarity of a `SentimentAnalysis` (also reused for the
`shiftType` of `detectEmotionalShifts`, which has the same three values). -/
inductive Overall
  | positive
  | negative
  | neutral
deriving DecidableEq

/-- The `intensity` field of a `SentimentAnalysis`. -/
inductive SentIntensity
  | low
  | medium
  | high
deriving DecidableEq

/-- The six fixed emotion channels of a `SentimentAnalysis`. -/
structure Emotions where
  joy : ℚ
  sadness : ℚ
  anger : ℚ
  fear : ℚ
  surprise : ℚ
  disgust : ℚ
deriving DecidableEq

/-- `SentimentAnalysis` (lib/nvidia-nim/sentiment.ts). -/
structure SentimentAnalysis where
  overall : Overall
  confidence : ℚ
  emotions : Emotions
  intensity : SentIntensity
  keywords : List (List Char)
  reasoning : List Char
deriving DecidableEq

/-- The fixed positive-word list of `createFallbackSentiment`. -/
def positiveWords : List (List Char) :=
  ["good".toList, "great".toList, "excellent".toList, "amazing".toList,
   "perfect".toList, "love".toList, "like".toList, "happy".toList]

/-- The fixed negative-word list of `createFallbackSentiment`. -/
def negativeWords : List (List Char) :=
  ["bad".toList, "terrible".toList, "awful".toList, "hate".toList,
   "dislike".toList, "angry".toList, "frustrated".toList, "sad".toList]

/-- Count of positive-list words present (as substrings) in the lowercased
text, as computed by `createFallbackSentiment`. -/
def positiveCount (text : List Char) : Nat :=
  (positiveWords.filter (fun w => containsSub w (text.map Char.toLower))).length

/-- Count of negative-list words present (as substrings) in the lowercased
text, as computed by `createFallbackSentiment`. -/
def negativeCount (text : List Char) : Nat :=
  (negativeWords.filter (fun w => containsSub w (text.map Char.toLower))).length

/-- `createFallbackSentiment` (lib/nvidia-nim/sentiment.ts, lines 303-331):
the deterministic keyword-based fallback used whenever the remote sentiment
call or its JSON parsing fails. -/
def createFallbackSentiment (text : List Char) : SentimentAnalysis :=
  let pos := positiveCount text
  let neg := negativeCount text
  let overall : Overall :=
    if pos > neg then .positive
    else if neg > pos then .negative
    else .neutral
  { overall := overall
    confidence := 6/10
    emotions :=
      { joy := if overall = .positive then 7/10 else 3/10
        sadness := if overall = .negative then 6/10 else 2/10
        anger := if overall = .negative then 4/10 else 1/10
        fear := 1/10
        surprise := 2/10
        disgust := if overall = .negative then 3/10 else 1/10 }
    intensity := .medium
    keywords := []
    reasoning := "Fallback analysis based on keyword detection".toList }

/-! ## analyzeSentiment / parseSentimentResponse (sentiment.ts) -/

/-- The fields of the JSON object produced by the platform `JSON.parse` on
the model response, each optional (absent, or present-but-falsy is resolved
by the JavaScript defaulting operators in `parseSentimentResponse`). -/
structure ParsedSentiment where
  overall : Option Overall
  confidence : Option ℚ
  joy : Option ℚ
  sadness : Option ℚ
  anger : Option ℚ
  fear : Option ℚ
  surprise : Option ℚ
  disgust : Option ℚ
  intensity : Option SentIntensity
  keywords : Option (List (List Char))
  reasoning : Option (List Char)
deriving DecidableEq

/-- Outcome of the remote sentiment call in `analyzeSentiment`: a thrown
network error, a non-2xx status, a response missing
`choices[0].message.content`, or a content string whose regex JSON
extraction and `JSON.parse` either fail (`none`) or yield a parsed object. -/
inductive RemoteOutcome
  | netError
  | badStatus
  | noContent
  | content (parse : Option ParsedSentiment)
deriving DecidableEq

/-- `parseSentimentResponse` (sentiment.ts, lines 245-274): clamp parsed
numeric fields into `[0,1]` (with the JavaScript `|| default` resolution
first), fall back to `createFallbackSentiment` when no JSON object could be
extracted or parsing threw. -/
def parseSentimentResponse (parse : Option ParsedSentiment)
    (originalText : List Char) : SentimentAnalysis :=
  match parse with
  | none => createFallbackSentiment originalText
  | some p =>
    { overall := p.overall.getD .neutral
      confidence := max 0 (min 1 (jsNumOr p.confidence (1/2)))
      emotions :=
        { joy := max 0 (min 1 (jsNumOr p.joy 0))
          sadness := max 0 (min 1 (jsNumOr p.sadness 0))
          anger := max 0 (min 1 (jsNumOr p.anger 0))
          fear := max 0 (min 1 (jsNumOr p.fear 0))
          surprise := max 0 (min 1 (jsNumOr p.surprise 0))
          disgust := max 0 (min 1 (jsNumOr p.disgust 0)) }
      intensity := p.intensity.getD .low
      keywords := p.keywords.getD []
      reasoning := p.reasoning.getD ("Analysis completed".toList) }

/-- `analyzeSentiment` (sentiment.ts, lines 49-94): every failure of the
remote call degrades to the fallback; a received content string goes through
`parseSentimentResponse`. -/
def analyzeSentiment (outcome : RemoteOutcome) (text : List Char) :
    SentimentAnalysis :=
  match outcome with
  | .netError => createFallbackSentiment text
  | .badStatus => createFallbackSentiment text
  | .noContent => createFallbackSentiment text
  | .content parse => parseSentimentResponse parse text

/-! ## detectEmotionalShifts (sentiment.ts, lines 144-201) -/

/-- The `intensity` classification of an emotional shift. -/
inductive ShiftIntensity
  | subtle
  | moderate
  | dramatic
deriving DecidableEq

/-- Result record of `detectEmotionalShifts`. -/
structure ShiftResult where
  hasShift : Bool
  shiftType : Overall
  intensity : ShiftIntensity
  description : List Char
deriving DecidableEq

/-- Rendering of an `Overall` value into the description template. -/
def overallText : Overall → List Char
  | .positive => "positive".toList
  | .negative => "negative".toList
  | .neutral => "neutral".toList

/-- Rendering of a `ShiftIntensity` value into the description template. -/
def shiftIntensityText : ShiftIntensity → List Char
  | .subtle => "subtle".toList
  | .moderate => "moderate".toList
  | .dramatic => "dramatic".toList

/-- `detectEmotionalShifts` (sentiment.ts): compares the current sentiment
against the most recent history entry and classifies the intensity from the
confidence difference against the average of the last three history
confidences. -/
def detectEmotionalShifts (currentSentiment : SentimentAnalysis)
    (previousSentiments : List SentimentAnalysis) : ShiftResult :=
  if previousSentiments = [] then
    { hasShift := false
      shiftType := .neutral
      intensity := .subtle
      description := "Initial sentiment baseline established".toList }
  else
    let recentSentiments := lastN 3 previousSentiments
    let avgPreviousConfidence :=
      ((recentSentiments.map SentimentAnalysis.confidence).sum) /
        (recentSentiments.length : ℚ)
    let confidenceDiff := currentSentiment.confidence - avgPreviousConfidence
    match recentSentiments.getLast? with
    | none =>
      { hasShift := false
        shiftType := .neutral
        intensity := .subtle
        description := "Sentiment remains consistent".toList }
    | some prevSent =>
      let prevOverall := prevSent.overall
      if prevOverall = currentSentiment.overall then
        { hasShift := false
          shiftType := .neutral
          intensity := .subtle
          description := "Sentiment remains consistent".toList }
      else
        let shiftType : Overall :=
          if currentSentiment.overall = .positive ∧ prevOverall ≠ .positive then
            .positive
          else if currentSentiment.overall = .negative ∧ prevOverall ≠ .negative then
            .negative
          else .neutral
        let intensity : ShiftIntensity :=
          if |confidenceDiff| > 3/10 then .dramatic
          else if |confidenceDiff| > 15/100 then .moderate
          else .subtle
        { hasShift := true
          shiftType := shiftType
          intensity := intensity
          description :=
            "Sentiment shifted from ".toList ++ overallText prevOverall ++
            " to ".toList ++ overallText currentSentiment.overall ++
            " with ".toList ++ shiftIntensityText intensity ++
            " intensity".toList }

/-- The history update performed after each analysis in `analyzeText`
(hooks/useSentimentAnalysis.ts, line 110):
`[...sentimentHistory.current.slice(-10), sentiment]`. -/
def updateSentimentHistory (history : List SentimentAnalysis)
    (sentiment : SentimentAnalysis) : List SentimentAnalysis :=
  lastN 10 history ++ [sentiment]

/-! ## Transcript data model (lib/captions/types, as used by useCaptions) -/

/-- `TranscriptEntry`: one recognized utterance of the live transcript. -/
structure TranscriptEntry where
  text : List Char
  timestamp : Int
  startTime : Int
  endTime : Int
  confidence : Option ℚ
  isFinal : Bool
  speaker : List Char
deriving DecidableEq

/-- `CaptionSession`: the persisted session record owned by `useCaptions`. -/
structure CaptionSession where
  id : List Char
  name : List Char
  startTime : Int
  endTime : Int
  transcript : List TranscriptEntry
  language : List Char
deriving DecidableEq

/-- The user-facing error conditions set by `useCaptions.startListening`. -/
inductive CaptionError
  | notInitialized
  | insecureContext
  | permissionDenied
  | startFailed
deriving DecidableEq

/-- The mutable state of the `useCaptions` hook relevant to the stabilizer:
React state (`isListening`, `transcript`, `currentSession`, `error`) plus the
refs `beginTimeRef`, `interimTimerRef` (recorded as the timer deadline),
`pendingInterimRef` and `lastFinalRef`. -/
structure CaptionsState where
  isListening : Bool
  transcript : List TranscriptEntry
  currentSession : Option CaptionSession
  error : Option CaptionError
  beginTime : Option Int
  interimTimer : Option Int
  pendingInterim : Option TranscriptEntry
  lastFinal : Option TranscriptEntry
deriving DecidableEq

/-- The `baseEntry` built for each result slot in `recognition.onresult`
(useSpeechRecognition.ts, useCaptions lines 605-613). -/
def mkBaseEntry (now : Int) (rawText : List Char) (conf : Option ℚ)
    (isFin : Bool) (st : CaptionsState) : TranscriptEntry :=
  { text := trimWS rawText
    timestamp := now
    startTime := st.beginTime.getD now
    endTime := now
    confidence := conf
    isFinal := isFin
    speaker := "User".toList }

/-- Body of the 120ms `setTimeout` callback of the interim throttle
(useCaptions lines 619-627).  The second component records the published
interim text (the "interim display update"), used as an observation only.
Note the callback clears the timer ref but not the pending buffer. -/
def fireInterimTimer (st : CaptionsState) : CaptionsState × List (List Char) :=
  let interim := st.pendingInterim
  let st1 := { st with interimTimer := none }
  match interim with
  | none => (st1, [])
  | some e =>
    ({ st1 with transcript := st1.transcript.filter (fun x => x.isFinal) ++ [e] },
     [e.text])

/-- Passage of time up to instant `t`: the scheduled interim timer fires
when its deadline has been reached. -/
def elapse (t : Int) (st : CaptionsState) : CaptionsState × List (List Char) :=
  match st.interimTimer with
  | some d => if d ≤ t then fireInterimTimer st else (st, [])
  | none => (st, [])

/-- The interim branch of `onresult` (useCaptions lines 615-628): overwrite
the pending buffer; start a 120ms timer only when none is in flight. -/
def processInterim (now : Int) (rawText : List Char) (conf : Option ℚ)
    (st : CaptionsState) : CaptionsState :=
  let entry := mkBaseEntry now rawText conf false st
  let st1 := { st with pendingInterim := some entry }
  match st1.interimTimer with
  | some _ => st1
  | none => { st1 with interimTimer := some (now + 120) }

/-- The merge decision of the final branch (useCaptions lines 640-647). -/
def shouldMerge (lastFin : Option TranscriptEntry)
    (finalEntry : TranscriptEntry) : Bool :=
  match lastFin with
  | none => false
  | some last =>
    let shortByChars := decide (finalEntry.text.length ≤ 8)
    let shortByWords := decide ((splitWS finalEntry.text).length ≤ 2)
    let closeInTime := decide (finalEntry.startTime - last.endTime ≤ 1500)
    (shortByChars || shortByWords) && closeInTime

/-- The merged caption text (useCaptions lines 663 and 682):
backtick-template concatenation with a single space, then
`.replace(/\s+/g, ' ').trim()`. -/
def mergedText (prevText newText : List Char) : List Char :=
  trimWS (collapseWS (prevText ++ ' ' :: newText))

/-- The display-sequence updater of the merge branch (useCaptions lines
650-672): rewrite the last final entry in place (or append when the display
holds no final entry), dropping any trailing interim. -/
def mergeDisplay (now : Int) (finalEntry : TranscriptEntry)
    (st : CaptionsState) : CaptionsState :=
  let prev := st.transcript
  if prev.any (fun e => e.isFinal) then
    let updated := prev.filter (fun e => e.isFinal)
    match updated.getLast? with
    | none => st
    | some last =>
      let merged : TranscriptEntry :=
        { last with
          text := mergedText last.text finalEntry.text
          endTime := finalEntry.endTime
          timestamp := now
          isFinal := true }
      { st with
        transcript := updated.dropLast ++ [merged]
        beginTime := some now
        lastFinal := some merged }
  else
    { st with
      transcript := prev.filter (fun e => e.isFinal) ++ [finalEntry]
      beginTime := some now
      lastFinal := some finalEntry }

/-- The session updater of the merge branch (useCaptions lines 675-691):
rewrite the session transcript tail (text and endTime only), or push the
entry when the session transcript is empty. -/
def mergeSession (now : Int) (finalEntry : TranscriptEntry)
    (s : CaptionSession) : CaptionSession :=
  let t := s.transcript
  match t.getLast? with
  | none => { s with transcript := t ++ [finalEntry], endTime := now }
  | some last =>
    { s with
      transcript := t.dropLast ++
        [{ last with
           text := mergedText last.text finalEntry.text
           endTime := finalEntry.endTime }]
      endTime := now }

/-- The display-sequence updater of the append branch (useCaptions lines
695-701). -/
def appendDisplay (now : Int) (finalEntry : TranscriptEntry)
    (st : CaptionsState) : CaptionsState :=
  { st with
    transcript := st.transcript.filter (fun e => e.isFinal) ++ [finalEntry]
    beginTime := some now
    lastFinal := some finalEntry }

/-- The session updater of the append branch (useCaptions lines 702-710). -/
def appendSession (now : Int) (finalEntry : TranscriptEntry)
    (s : CaptionSession) : CaptionSession :=
  { s with transcript := s.transcript ++ [finalEntry], endTime := now }

/-- The final branch of `onresult` (useCaptions lines 629-712): cancel the
pending interim and timer, decide the merge, update display and session. -/
def processFinal (now : Int) (rawText : List Char) (conf : Option ℚ)
    (st : CaptionsState) : CaptionsState :=
  let finalEntry := mkBaseEntry now rawText conf true st
  let st1 := { st with pendingInterim := none, interimTimer := none }
  if shouldMerge st1.lastFinal finalEntry then
    let st2 := mergeDisplay now finalEntry st1
    match st2.currentSession with
    | some s => { st2 with currentSession := some (mergeSession now finalEntry s) }
    | none => st2
  else
    let st2 := appendDisplay now finalEntry st1
    match st2.currentSession with
    | some s => { st2 with currentSession := some (appendSession now finalEntry s) }
    | none => st2

/-- One recognition result slot (with its arrival instant) or a pure passage
of time to a given instant. -/
inductive CaptionEvent
  | result (time : Int) (text : List Char) (confidence : Option ℚ) (final : Bool)
  | tick (time : Int)
deriving DecidableEq

/-- One step of the stabilizer: any due timer fires first, then the result
slot is processed.  The second component lists the interim display updates
published during the step. -/
def stepCaptions : CaptionEvent → CaptionsState → CaptionsState × List (List Char)
  | .result t txt conf fin, st =>
    let r := elapse t st
    if fin then (processFinal t txt conf r.1, r.2)
    else (processInterim t txt conf r.1, r.2)
  | .tick t, st => elapse t st

/-- Run of the stabilizer over a sequence of events, collecting the
published interim display updates. -/
def runCaptions : List CaptionEvent → CaptionsState → CaptionsState × List (List Char)
  | [], st => (st, [])
  | e :: evs, st =>
    let r := stepCaptions e st
    let rest := runCaptions evs r.1
    (rest.1, r.2 ++ rest.2)

/-! ## startListening (useCaptions lines 742-801) -/

/-- The two kinds of exception `recognition.start()` can throw. -/
inductive StartErrKind
  | invalidState
  | other
deriving DecidableEq

/-- Environment probed by `startListening`: whether the recognizer was
initialized, whether the context is secure (HTTPS or localhost), whether the
microphone permission is denied, and the outcome of `recognition.start()`. -/
structure StartEnv where
  initialized : Bool
  secureContext : Bool
  permissionDenied : Bool
  startError : Option StartErrKind
deriving DecidableEq

/-- Platform `Date.toLocaleString()` of the current time, modelled as the
decimal rendering of the millisecond clock (injective in the instant, which
is all the embedding relies on). -/
def dateLocaleString (now : Int) : List Char :=
  (toString now).toList

/-- The new session object created by `startListening` (lines 777-784). -/
def mkNewSession (now : Int) (language : List Char) : CaptionSession :=
  { id := "session_".toList ++ (toString now).toList
    name := "Meeting ".toList ++ dateLocaleString now
    startTime := now
    endTime := now
    transcript := []
    language := language }

/-- `startListening` (useCaptions lines 742-801): guard checks in source
order, then session creation, live-view clearing and recognizer start. -/
def startListening (env : StartEnv) (now : Int) (language : List Char)
    (st : CaptionsState) : CaptionsState :=
  if env.initialized = false then { st with error := some .notInitialized }
  else if st.isListening then st
  else if env.secureContext = false then { st with error := some .insecureContext }
  else if env.permissionDenied then { st with error := some .permissionDenied }
  else
    let st1 := { st with
      currentSession := some (mkNewSession now language)
      transcript := []
      error := none }
    match env.startError with
    | none => st1
    | some .invalidState => { st1 with isListening := true }
    | some .other => { st1 with error := some .startFailed }

/-! ## Enrichment pipeline (hooks/useNimCaptions.ts) -/

/-- `processingStatus` of an `EnhancedTranscriptEntry`. -/
inductive ProcessingStatus
  | pending
  | processing
  | enhanced
  | error
deriving DecidableEq

/-- `EnhancedTranscriptEntry` (lib/captions/nvidia-types.ts): a
`TranscriptEntry` with enrichment fields. -/
structure EnhancedTranscriptEntry extends TranscriptEntry where
  enhancedText : Option (List Char)
  nimConfidence : Option ℚ
  processingStatus : ProcessingStatus
  originalText : List Char
deriving DecidableEq

/-- `enhancementSettings` carried by a `NimCaptionSession`. -/
structure NimEnhancementSettings where
  enableNimEnhancement : Bool
  enhanceOnFinal : Bool
  contextAware : Bool
deriving DecidableEq

/-- `NimCaptionSession` (lib/captions/nvidia-types.ts): a `CaptionSession`
whose transcript is the enhanced view, plus batch-enrichment results. -/
structure NimCaptionSession extends CaptionSession where
  enhancedView : List EnhancedTranscriptEntry
  summary : Option (List Char)
  actionItems : Option (List (List Char))
  nimProcessed : Bool
  enhancementSettings : NimEnhancementSettings
deriving DecidableEq

/-- The composite dedup id of an entry (useNimCaptions.ts):
`timestamp.getTime() + underscore + first 20 chars of originalText`. -/
def entryKey (e : EnhancedTranscriptEntry) : List Char :=
  (toString e.timestamp).toList ++ '_' :: e.originalText.take 20

/-- JavaScript `entry.enhancedText || entry.originalText`: the enhanced text
when present and nonempty (truthy), otherwise the original text. -/
def bestText (e : EnhancedTranscriptEntry) : List Char :=
  match e.enhancedText with
  | none => e.originalText
  | some t => if t = [] then e.originalText else t

/-- Outcome of `generateSummary` / `extractActionItems` before the remote
response: either the thrown no-transcript error, or the single remote call
with its payload and request type. -/
inductive SummaryOutcome
  | noTranscript
  | call (payload : List Char) (reqType : List Char)
deriving DecidableEq

/-- The newline-joined batch payload (useNimCaptions.ts lines 364-367 and
397-400): final entries, best-available text, joined by newlines. -/
def summaryPayload (enhancedTranscript : List EnhancedTranscriptEntry) :
    List Char :=
  List.intercalate ['\n'] ((enhancedTranscript.filter (fun e => e.isFinal)).map bestText)

/-- `generateSummary` (useNimCaptions.ts lines 356-386), up to the remote
call: throws when there is no current session or the enhanced transcript
has no entries; otherwise issues one `summarize` call of type `summary`. -/
def generateSummaryRequest (currentNimSession : Option NimCaptionSession)
    (enhancedTranscript : List EnhancedTranscriptEntry) : SummaryOutcome :=
  if currentNimSession.isNone || enhancedTranscript.length == 0 then
    .noTranscript
  else
    .call (summaryPayload enhancedTranscript) "summary".toList

/-- `extractActionItems` (useNimCaptions.ts lines 389-419), up to the remote
call: the same guard and payload, request type `action-items`. -/
def extractActionItemsRequest (currentNimSession : Option NimCaptionSession)
    (enhancedTranscript : List EnhancedTranscriptEntry) : SummaryOutcome :=
  if currentNimSession.isNone || enhancedTranscript.length == 0 then
    .noTranscript
  else
    .call (summaryPayload enhancedTranscript) "action-items".toList

/-- The enrichment-relevant state of `useNimCaptions`: the enhanced view,
the `processedEntries` id set, the in-flight queue, and the rolling context
cache. -/
structure NimState where
  enhancedTranscript : List EnhancedTranscriptEntry
  processedEntries : List (List Char)
  nimProcessingQueue : List (List Char)
  contextCache : List (List Char)
deriving DecidableEq

/-- `Set.add` on the processed-id set, modelled on a duplicate-free list. -/
def insertProcessed (ids : List (List Char)) (id : List Char) :
    List (List Char) :=
  if id ∈ ids then ids else ids ++ [id]

/-- Outcome of the remote `enhance-captions` call. -/
inductive EnhanceOutcome
  | success (text : List Char)
  | failure
deriving DecidableEq

/-- The status-rewriting map used by `enhanceCaption` on the entries whose
composite id matches. -/
def setStatus (id : List Char) (status : ProcessingStatus)
    (l : List EnhancedTranscriptEntry) : List EnhancedTranscriptEntry :=
  l.map (fun e => if entryKey e = id then { e with processingStatus := status } else e)

/-- `enhanceCaption` (useNimCaptions.ts lines 283-353) for one entry id,
with the remote outcome as a parameter: no-op when the id is already
in-flight; otherwise enqueue, mark `processing`, then on success record the
enhanced text, fixed `0.95` enrichment confidence, update the context cache
(when context awareness is on) and add the id to `processedEntries`; on
failure (or when no entry matches the id) set status `error` and leave
`processedEntries` untouched.  The `finally` block removes the id from the
in-flight queue in every case. -/
def enhanceCaption (contextAware : Bool) (outcome : EnhanceOutcome)
    (id : List Char) (st : NimState) : NimState :=
  if id ∈ st.nimProcessingQueue then st
  else
    let st1 := { st with nimProcessingQueue := st.nimProcessingQueue ++ [id] }
    match st1.enhancedTranscript.find? (fun e => decide (entryKey e = id)) with
    | none =>
      let st2 := { st1 with
        enhancedTranscript := setStatus id .error st1.enhancedTranscript }
      { st2 with
        nimProcessingQueue := st2.nimProcessingQueue.filter (fun x => decide (x ≠ id)) }
    | some _ =>
      let stP := { st1 with
        enhancedTranscript := setStatus id .processing st1.enhancedTranscript }
      match outcome with
      | .failure =>
        let stE := { stP with
          enhancedTranscript := setStatus id .error stP.enhancedTranscript }
        { stE with
          nimProcessingQueue := stE.nimProcessingQueue.filter (fun x => decide (x ≠ id)) }
      | .success t =>
        let stS := { stP with
          enhancedTranscript := stP.enhancedTranscript.map (fun e =>
            if entryKey e = id then
              { e with
                enhancedText := some t
                processingStatus := .enhanced
                nimConfidence := some (95/100) }
            else e) }
        let stC :=
          if contextAware then
            { stS with contextCache := lastN 10 (stS.contextCache ++ [t]) }
          else stS
        let stD := { stC with
          processedEntries := insertProcessed stC.processedEntries id }
        { stD with
          nimProcessingQueue := stD.nimProcessingQueue.filter (fun x => decide (x ≠ id)) }

/-- The per-entry gate of the auto-enhancement effect (useNimCaptions.ts
lines 220-226): final, not yet processed, with a confidence at or above the
configured threshold. -/
def eligibleForEnhancement (confidenceThreshold : ℚ)
    (processed : List (List Char)) (e : EnhancedTranscriptEntry) : Bool :=
  e.isFinal &&
  !(decide (entryKey e ∈ processed)) &&
  (match e.confidence with
   | none => false
   | some c => decide (confidenceThreshold ≤ c))

/-! ## Theorems: fallback sentiment (C7) -/

/-- C7: the fallback sentiment heuristic is deterministic — `overall` is
positive iff strictly more positive-list words than negative-list words are
present in the lowercased text, negative iff the reverse, neutral iff the
counts tie; and any text with exactly 2 positive-list words and 0
negative-list words yields overall positive, confidence 0.6 and emotions
joy=0.7, sadness=0.2, anger=0.1, fear=0.1, surprise=0.2, disgust=0.1. -/
theorem fallback_sentiment_deterministic :
    (∀ text : List Char,
      (((createFallbackSentiment text).overall = Overall.positive) ↔
        negativeCount text < positiveCount text) ∧
      (((createFallbackSentiment text).overall = Overall.negative) ↔
        positiveCount text < negativeCount text) ∧
      (((createFallbackSentiment text).overall = Overall.neutral) ↔
        positiveCount text = negativeCount text)) ∧
    (∀ text : List Char, positiveCount text = 2 → negativeCount text = 0 →
      createFallbackSentiment text =
        { overall := Overall.positive
          confidence := 6/10
          emotions := { joy := 7/10, sadness := 2/10, anger := 1/10,
                        fear := 1/10, surprise := 2/10, disgust := 1/10 }
          intensity := SentIntensity.medium
          keywords := []
          reasoning := "Fallback analysis based on keyword detection".toList }) := by
  constructor
  · intro text
    simp only [createFallbackSentiment]
    split_ifs with h1 h2 <;> refine ⟨?_, ?_, ?_⟩ <;> simp_all <;> omega
  · intro text hp hn
    simp only [createFallbackSentiment, hp, hn]
    norm_num
    decide

/-- Witness for C7 at the text `good great`: both hypotheses hold there and
the theorem yields the fixed record. -/
theorem fallback_sentiment_deterministic_witness :
    createFallbackSentiment "good great".toList =
      { overall := Overall.positive
        confidence := 6/10
        emotions := { joy := 7/10, sadness := 2/10, anger := 1/10,
                      fear := 1/10, surprise := 2/10, disgust := 1/10 }
        intensity := SentIntensity.medium
        keywords := []
        reasoning := "Fallback analysis based on keyword detection".toList } :=
  fallback_sentiment_deterministic.2 ("good great".toList) (by decide) (by decide)

/-! ## Theorems: emotional shift detection (C8) -/

theorem lastN_ne_nil {α : Type} (n : Nat) (l : List α) (hn : 0 < n)
    (hl : l ≠ []) : lastN n l ≠ [] := by
  have hlen : 0 < l.length := List.length_pos.mpr hl
  have : (lastN n l).length = l.length - (l.length - n) := by
    simp [lastN]
  intro hcontra
  rw [hcontra] at this
  simp at this
  omega

theorem getLast?_lastN {α : Type} (n : Nat) (l : List α)
    (h : lastN n l ≠ []) : (lastN n l).getLast? = l.getLast? := by
  unfold lastN at *
  conv_rhs => rw [← List.take_append_drop (l.length - n) l]
  rw [List.getLast?_append_of_ne_nil _ h]

/-- A minimal `SentimentAnalysis` with the given polarity and confidence,
used for concrete instances of the shift detector and the history bound. -/
def mkSent (o : Overall) (c : ℚ) : SentimentAnalysis :=
  { overall := o
    confidence := c
    emotions := ⟨0, 0, 0, 0, 0, 0⟩
    intensity := .low
    keywords := []
    reasoning := [] }

/-- C8: `detectEmotionalShifts` reports no shift whenever the current
overall equals the overall of the most recent history item, regardless of the
confidence difference; when they differ, the intensity is classified from
the absolute difference between the current confidence and the average of
the last three history confidences at thresholds 0.30 and 0.15 — and the
differences 0.31, 0.20, 0.05 classify as dramatic, moderate, subtle. -/
theorem emotional_shift_rules :
    (∀ (cur : SentimentAnalysis) (hist : List SentimentAnalysis)
        (last : SentimentAnalysis),
      hist.getLast? = some last → last.overall = cur.overall →
      (detectEmotionalShifts cur hist).hasShift = false) ∧
    (∀ (cur : SentimentAnalysis) (hist : List SentimentAnalysis)
        (last : SentimentAnalysis),
      hist.getLast? = some last → last.overall ≠ cur.overall →
      (detectEmotionalShifts cur hist).intensity =
        (if |cur.confidence -
              ((lastN 3 hist).map SentimentAnalysis.confidence).sum /
                ((lastN 3 hist).length : ℚ)| > 3/10 then ShiftIntensity.dramatic
         else if |cur.confidence -
              ((lastN 3 hist).map SentimentAnalysis.confidence).sum /
                ((lastN 3 hist).length : ℚ)| > 15/100 then ShiftIntensity.moderate
         else ShiftIntensity.subtle)) ∧
    ((detectEmotionalShifts (mkSent .positive (81/100)) [mkSent .neutral (1/2)]).intensity
        = ShiftIntensity.dramatic ∧
     (detectEmotionalShifts (mkSent .positive (7/10)) [mkSent .neutral (1/2)]).intensity
        = ShiftIntensity.moderate ∧
     (detectEmotionalShifts (mkSent .positive (55/100)) [mkSent .neutral (1/2)]).intensity
        = ShiftIntensity.subtle) := by
  have hmain : ∀ (cur : SentimentAnalysis) (hist : List SentimentAnalysis)
      (last : SentimentAnalysis), hist.getLast? = some last →
      (lastN 3 hist).getLast? = some last ∧ hist ≠ [] := by
    intro cur hist last hlast
    have hne : hist ≠ [] := by
      intro h
      rw [h] at hlast
      simp at hlast
    have h3 : lastN 3 hist ≠ [] := lastN_ne_nil 3 hist (by omega) hne
    exact ⟨by rw [getLast?_lastN 3 hist h3]; exact hlast, hne⟩
  refine ⟨?_, ?_, ?_, ?_, ?_⟩
  · intro cur hist last hlast heq
    obtain ⟨h3, hne⟩ := hmain cur hist last hlast
    unfold detectEmotionalShifts
    rw [if_neg hne]
    simp only [h3]
    rw [if_pos heq]
  · intro cur hist last hlast hneq
    obtain ⟨h3, hne⟩ := hmain cur hist last hlast
    unfold detectEmotionalShifts
    rw [if_neg hne]
    simp only [h3]
    rw [if_neg hneq]
  · unfold detectEmotionalShifts
    norm_num [lastN, mkSent]
    rw [if_neg (by decide)]
    norm_num [abs_of_nonneg]
  · unfold detectEmotionalShifts
    norm_num [lastN, mkSent]
    rw [if_neg (by decide)]
    norm_num [abs_of_nonneg]
  · unfold detectEmotionalShifts
    norm_num [lastN, mkSent]
    rw [if_neg (by decide)]
    norm_num [abs_of_nonneg]

/-- Witness for C8: concrete equal-overall pair with a large confidence
difference still reports no shift, and a differing pair classifies by the
stated thresholds. -/
theorem emotional_shift_rules_witness :
    (detectEmotionalShifts (mkSent Overall.positive (99/100))
      [mkSent Overall.positive (1/100)]).hasShift = false ∧
    (detectEmotionalShifts (mkSent Overall.positive (81/100))
      [mkSent Overall.neutral (1/2)]).intensity =
      (if |(mkSent Overall.positive (81/100)).confidence -
            ((lastN 3 [mkSent Overall.neutral (1/2)]).map SentimentAnalysis.confidence).sum /
              ((lastN 3 [mkSent Overall.neutral (1/2)]).length : ℚ)| > 3/10 then
        ShiftIntensity.dramatic
       else if |(mkSent Overall.positive (81/100)).confidence -
            ((lastN 3 [mkSent Overall.neutral (1/2)]).map SentimentAnalysis.confidence).sum /
              ((lastN 3 [mkSent Overall.neutral (1/2)]).length : ℚ)| > 15/100 then
        ShiftIntensity.moderate
       else ShiftIntensity.subtle) :=
  ⟨emotional_shift_rules.1 (mkSent Overall.positive (99/100))
      [mkSent Overall.positive (1/100)] (mkSent Overall.positive (1/100)) rfl rfl,
   emotional_shift_rules.2.1 (mkSent Overall.positive (81/100))
      [mkSent Overall.neutral (1/2)] (mkSent Overall.neutral (1/2)) rfl (by decide)⟩

/-! ## Theorems: sentiment history bound (C9) -/

/-- C9 counterexample: eleven analyses starting from an empty history leave
eleven retained results, violating the claimed at-most-10 bound (the code
appends the new result to the `slice(-10)` of the previous history, which
keeps up to 11 elements). -/
theorem sentiment_history_bound_counterexample :
    ((List.replicate 11 (mkSent Overall.neutral (1/2))).foldl
        updateSentimentHistory []).length = 11 ∧
    ¬ (((List.replicate 11 (mkSent Overall.neutral (1/2))).foldl
        updateSentimentHistory []).length ≤ 10) := by
  constructor
  · rfl
  · decide

/-- C9 amended: each history update retains the new result appended to at
most the 10 most recent previous results — the history length is
`min (previous length) 10 + 1`, hence never exceeds 11, and the retained
history is a suffix of the previous history extended by the new result
(older results are discarded). -/
theorem sentiment_history_bound_amended :
    ∀ (h : List SentimentAnalysis) (s : SentimentAnalysis),
      (updateSentimentHistory h s).length = min h.length 10 + 1 ∧
      (updateSentimentHistory h s).length ≤ 11 ∧
      updateSentimentHistory h s <:+ h ++ [s] := by
  intro h s
  refine ⟨?_, ?_, ?_⟩
  · simp [updateSentimentHistory, lastN]
    omega
  · simp [updateSentimentHistory, lastN]
    omega
  · refine ⟨h.take (h.length - 10), ?_⟩
    simp only [updateSentimentHistory, lastN]
    rw [← List.append_assoc, List.take_append_drop]

/-! ## Theorems: analyzeSentiment totality and range safety (C10) -/

/-- C10: `analyzeSentiment` returns a result for every remote outcome; each
failure path (network error, non-2xx, missing content, unparseable JSON)
yields the deterministic fallback, parsed numeric fields are clamped into
the unit interval, and the returned confidence and all six emotion channels
always lie in `[0,1]`. -/
theorem analyze_sentiment_total_range_safe :
    ∀ (outcome : RemoteOutcome) (text : List Char),
      (0 ≤ (analyzeSentiment outcome text).confidence ∧
        (analyzeSentiment outcome text).confidence ≤ 1) ∧
      (0 ≤ (analyzeSentiment outcome text).emotions.joy ∧
        (analyzeSentiment outcome text).emotions.joy ≤ 1) ∧
      (0 ≤ (analyzeSentiment outcome text).emotions.sadness ∧
        (analyzeSentiment outcome text).emotions.sadness ≤ 1) ∧
      (0 ≤ (analyzeSentiment outcome text).emotions.anger ∧
        (analyzeSentiment outcome text).emotions.anger ≤ 1) ∧
      (0 ≤ (analyzeSentiment outcome text).emotions.fear ∧
        (analyzeSentiment outcome text).emotions.fear ≤ 1) ∧
      (0 ≤ (analyzeSentiment outcome text).emotions.surprise ∧
        (analyzeSentiment outcome text).emotions.surprise ≤ 1) ∧
      (0 ≤ (analyzeSentiment outcome text).emotions.disgust ∧
        (analyzeSentiment outcome text).emotions.disgust ≤ 1) ∧
      ((outcome = RemoteOutcome.netError ∨ outcome = RemoteOutcome.badStatus ∨
        outcome = RemoteOutcome.noContent ∨ outcome = RemoteOutcome.content none) →
        analyzeSentiment outcome text = createFallbackSentiment text) := by
  have hfall : ∀ t : List Char,
      (0 ≤ (createFallbackSentiment t).confidence ∧
        (createFallbackSentiment t).confidence ≤ 1) ∧
      (0 ≤ (createFallbackSentiment t).emotions.joy ∧
        (createFallbackSentiment t).emotions.joy ≤ 1) ∧
      (0 ≤ (createFallbackSentiment t).emotions.sadness ∧
        (createFallbackSentiment t).emotions.sadness ≤ 1) ∧
      (0 ≤ (createFallbackSentiment t).emotions.anger ∧
        (createFallbackSentiment t).emotions.anger ≤ 1) ∧
      (0 ≤ (createFallbackSentiment t).emotions.fear ∧
        (createFallbackSentiment t).emotions.fear ≤ 1) ∧
      (0 ≤ (createFallbackSentiment t).emotions.surprise ∧
        (createFallbackSentiment t).emotions.surprise ≤ 1) ∧
      (0 ≤ (createFallbackSentiment t).emotions.disgust ∧
        (createFallbackSentiment t).emotions.disgust ≤ 1) := by
    intro t
    simp only [createFallbackSentiment]
    split_ifs <;> norm_num
  have hclamp : ∀ q : ℚ, 0 ≤ max 0 (min 1 q) ∧ max 0 (min 1 q) ≤ 1 := by
    intro q
    exact ⟨le_max_left 0 _, max_le (by norm_num) (min_le_left 1 q)⟩
  intro outcome text
  cases outcome with
  | netError =>
    refine ⟨(hfall text).1, (hfall text).2.1, (hfall text).2.2.1, (hfall text).2.2.2.1,
      (hfall text).2.2.2.2.1, (hfall text).2.2.2.2.2.1, (hfall text).2.2.2.2.2.2, fun _ => rfl⟩
  | badStatus =>
    refine ⟨(hfall text).1, (hfall text).2.1, (hfall text).2.2.1, (hfall text).2.2.2.1,
      (hfall text).2.2.2.2.1, (hfall text).2.2.2.2.2.1, (hfall text).2.2.2.2.2.2, fun _ => rfl⟩
  | noContent =>
    refine ⟨(hfall text).1, (hfall text).2.1, (hfall text).2.2.1, (hfall text).2.2.2.1,
      (hfall text).2.2.2.2.1, (hfall text).2.2.2.2.2.1, (hfall text).2.2.2.2.2.2, fun _ => rfl⟩
  | content parse =>
    cases parse with
    | none =>
      refine ⟨(hfall text).1, (hfall text).2.1, (hfall text).2.2.1, (hfall text).2.2.2.1,
        (hfall text).2.2.2.2.1, (hfall text).2.2.2.2.2.1, (hfall text).2.2.2.2.2.2, fun _ => rfl⟩
    | some p =>
      refine ⟨hclamp _, hclamp _, hclamp _, hclamp _, hclamp _, hclamp _, hclamp _, ?_⟩
      rintro (h | h | h | h) <;> simp at h

/-- Witness for C10: the network-error outcome on the empty text. -/
theorem analyze_sentiment_total_range_safe_witness :
    analyzeSentiment RemoteOutcome.netError [] = createFallbackSentiment [] ∧
    0 ≤ (analyzeSentiment RemoteOutcome.netError []).confidence :=
  ⟨(analyze_sentiment_total_range_safe RemoteOutcome.netError []).2.2.2.2.2.2.2
      (Or.inl rfl),
   (analyze_sentiment_total_range_safe RemoteOutcome.netError []).1.1⟩

/-! ## Stabilizer invariant and helper lemmas (C1, C2) -/

theorem filter_final_idem (l : List TranscriptEntry) :
    (l.filter (fun e => e.isFinal)).filter (fun e => e.isFinal) =
      l.filter (fun e => e.isFinal) := by
  simp [List.filter_filter]

theorem filter_dropLast_final (l : List TranscriptEntry) :
    ((l.filter (fun e => e.isFinal)).dropLast).filter (fun e => e.isFinal) =
      (l.filter (fun e => e.isFinal)).dropLast := by
  rw [List.filter_eq_self]
  intro a ha
  exact (List.mem_filter.1 (List.dropLast_subset _ ha)).2

/-- The ref/display consistency maintained by the stabilizer: `lastFinalRef`
is exactly the last final entry of the display sequence (or absent when the
display holds no final entry), and any buffered interim is non-final. -/
def StabInv (st : CaptionsState) : Prop :=
  (st.transcript.filter (fun e => e.isFinal)).getLast? = st.lastFinal ∧
  st.pendingInterim.map (fun e => e.isFinal) ≠ some true

theorem stabInv_fire (st : CaptionsState) (h : StabInv st) :
    StabInv (fireInterimTimer st).1 := by
  obtain ⟨h1, h2⟩ := h
  unfold fireInterimTimer
  cases hp : st.pendingInterim with
  | none => exact ⟨h1, by simp⟩
  | some e0 =>
    have he0 : e0.isFinal = false := by
      rw [hp] at h2
      simp at h2
      exact h2
    refine ⟨?_, ?_⟩
    · simp only [List.filter_append, filter_final_idem]
      simp [he0, h1]
    · simp [hp, he0]

theorem stabInv_elapse (t : Int) (st : CaptionsState) (h : StabInv st) :
    StabInv (elapse t st).1 := by
  unfold elapse
  cases st.interimTimer with
  | none => exact h
  | some d =>
    by_cases hd : d ≤ t
    · simpa [hd] using stabInv_fire st h
    · simpa [hd] using h

theorem stabInv_processInterim (now : Int) (raw : List Char) (conf : Option ℚ)
    (st : CaptionsState) (h : StabInv st) :
    StabInv (processInterim now raw conf st) := by
  obtain ⟨h1, h2⟩ := h
  unfold processInterim
  cases st.interimTimer <;> exact ⟨h1, by simp [mkBaseEntry]⟩

theorem shouldMerge_none (fe : TranscriptEntry) : shouldMerge none fe = false := rfl

theorem shouldMerge_some_iff (l : TranscriptEntry) (fe : TranscriptEntry) :
    shouldMerge (some l) fe = true ↔
      ((fe.text.length ≤ 8 ∨ (splitWS fe.text).length ≤ 2) ∧
        fe.startTime - l.endTime ≤ 1500) := by
  simp [shouldMerge]

theorem stabInv_transcript_facts (st : CaptionsState) (l : TranscriptEntry)
    (hl : (st.transcript.filter (fun e => e.isFinal)).getLast? = some l) :
    st.transcript.any (fun e => e.isFinal) = true ∧ l.isFinal = true := by
  have hmem := List.mem_of_getLast?_eq_some hl
  rw [List.mem_filter] at hmem
  exact ⟨List.any_eq_true.mpr ⟨l, hmem.1, hmem.2⟩, hmem.2⟩

theorem stabInv_mergeDisplay (now : Int) (fe : TranscriptEntry)
    (st : CaptionsState) (l : TranscriptEntry)
    (hl : (st.transcript.filter (fun e => e.isFinal)).getLast? = some l)
    (hpend : st.pendingInterim.map (fun e => e.isFinal) ≠ some true) :
    StabInv (mergeDisplay now fe st) ∧
    (mergeDisplay now fe st).transcript =
      (st.transcript.filter (fun e => e.isFinal)).dropLast ++
        [{ l with
           text := mergedText l.text fe.text
           endTime := fe.endTime
           timestamp := now
           isFinal := true }] ∧
    (mergeDisplay now fe st).pendingInterim = st.pendingInterim := by
  obtain ⟨hany, _⟩ := stabInv_transcript_facts st l hl
  unfold mergeDisplay
  dsimp only
  rw [if_pos hany, hl]
  refine ⟨⟨?_, ?_⟩, rfl, rfl⟩
  · dsimp only
    simp only [List.filter_append, filter_dropLast_final]
    simp [List.getLast?_concat]
  · exact hpend

theorem stabInv_appendDisplay (now : Int) (fe : TranscriptEntry)
    (hfe : fe.isFinal = true) (st : CaptionsState)
    (hpend : st.pendingInterim.map (fun e => e.isFinal) ≠ some true) :
    StabInv (appendDisplay now fe st) ∧
    (appendDisplay now fe st).transcript =
      st.transcript.filter (fun e => e.isFinal) ++ [fe] ∧
    (appendDisplay now fe st).pendingInterim = st.pendingInterim := by
  unfold appendDisplay
  refine ⟨⟨?_, hpend⟩, rfl, rfl⟩
  simp only [List.filter_append, filter_final_idem]
  simp [hfe, List.getLast?_concat]

theorem stabInv_processFinal (now : Int) (raw : List Char) (conf : Option ℚ)
    (st : CaptionsState) (h : StabInv st) :
    StabInv (processFinal now raw conf st) := by
  obtain ⟨h1, h2⟩ := h
  unfold processFinal
  dsimp only
  split
  · rename_i hm
    obtain ⟨l, hlf⟩ : ∃ l, st.lastFinal = some l := by
      cases hsl : st.lastFinal with
      | none => rw [hsl] at hm; simp [shouldMerge_none] at hm
      | some l0 => exact ⟨l0, rfl⟩
    have hl : (st.transcript.filter (fun e => e.isFinal)).getLast? = some l := by
      rw [h1, hlf]
    have hres := stabInv_mergeDisplay now (mkBaseEntry now raw conf true st)
      { st with pendingInterim := none, interimTimer := none } l hl (by simp)
    split
    · exact hres.1
    · exact hres.1
  · have hres := stabInv_appendDisplay now (mkBaseEntry now raw conf true st) rfl
      { st with pendingInterim := none, interimTimer := none } (by simp)
    split
    · exact hres.1
    · exact hres.1

theorem stabInv_step (e : CaptionEvent) (st : CaptionsState) (h : StabInv st) :
    StabInv (stepCaptions e st).1 := by
  cases e with
  | result t txt conf fin =>
    unfold stepCaptions
    dsimp only
    have helapse := stabInv_elapse t st h
    cases fin with
    | true => simpa using stabInv_processFinal t txt conf (elapse t st).1 helapse
    | false => simpa using stabInv_processInterim t txt conf (elapse t st).1 helapse
  | tick t => exact stabInv_elapse t st h

/-! ## Theorem: final-result merge decision and effect (C1) -/

/-- C1: for every final recognition result processed by the stabilizer (in
any state satisfying the ref/display consistency invariant, which every
step preserves), the merge decision holds iff a previous final entry exists
in the display and the new entry is short (≤ 8 chars or ≤ 2 words) and
arrives within 1500ms of the endTime of that entry; on a merge the display
rewrites the previous final entry in place — text `prev ⧺ space ⧺ new` with
whitespace collapsed and trimmed, endTime taken from the new entry — and
the sequence length does not increase; otherwise the new entry is appended
as the new tail. -/
theorem final_merge_decision :
    (∀ (e : CaptionEvent) (st : CaptionsState), StabInv st →
      StabInv (stepCaptions e st).1) ∧
    (∀ (st : CaptionsState) (now : Int) (raw : List Char) (conf : Option ℚ),
      StabInv st →
      (shouldMerge st.lastFinal (mkBaseEntry now raw conf true st) = true ↔
        (∃ l, (st.transcript.filter (fun e => e.isFinal)).getLast? = some l ∧
          ((mkBaseEntry now raw conf true st).text.length ≤ 8 ∨
            (splitWS (mkBaseEntry now raw conf true st).text).length ≤ 2) ∧
          (mkBaseEntry now raw conf true st).startTime - l.endTime ≤ 1500)) ∧
      (∀ l, (st.transcript.filter (fun e => e.isFinal)).getLast? = some l →
        shouldMerge st.lastFinal (mkBaseEntry now raw conf true st) = true →
        (processFinal now raw conf st).transcript =
          (st.transcript.filter (fun e => e.isFinal)).dropLast ++
            [{ l with
               text := mergedText l.text (mkBaseEntry now raw conf true st).text
               endTime := (mkBaseEntry now raw conf true st).endTime
               timestamp := now
               isFinal := true }] ∧
        (processFinal now raw conf st).transcript.length ≤ st.transcript.length) ∧
      (shouldMerge st.lastFinal (mkBaseEntry now raw conf true st) = false →
        (processFinal now raw conf st).transcript =
          st.transcript.filter (fun e => e.isFinal) ++
            [mkBaseEntry now raw conf true st])) := by
  refine ⟨stabInv_step, ?_⟩
  intro st now raw conf h
  obtain ⟨h1, h2⟩ := h
  refine ⟨?_, ?_, ?_⟩
  · constructor
    · intro hm
      cases hlf : st.lastFinal with
      | none =>
        rw [hlf] at hm
        simp [shouldMerge_none] at hm
      | some l0 =>
        rw [hlf, shouldMerge_some_iff] at hm
        exact ⟨l0, by rw [h1, hlf], hm.1, hm.2⟩
    · rintro ⟨l, hl, hshort, htime⟩
      rw [h1] at hl
      rw [hl, shouldMerge_some_iff]
      exact ⟨hshort, htime⟩
  · intro l hl hm
    have hres := stabInv_mergeDisplay now (mkBaseEntry now raw conf true st)
      { st with pendingInterim := none, interimTimer := none } l hl (by simp)
    have hlen : (st.transcript.filter (fun e => e.isFinal)).length ≤
        st.transcript.length := List.length_filter_le _ _
    have hnil : st.transcript.filter (fun e => e.isFinal) ≠ [] := by
      intro hc
      rw [hc] at hl
      simp at hl
    have hpos : 0 < (st.transcript.filter (fun e => e.isFinal)).length :=
      List.length_pos.mpr hnil
    have htr : (processFinal now raw conf st).transcript =
        (st.transcript.filter (fun e => e.isFinal)).dropLast ++
          [{ l with
             text := mergedText l.text (mkBaseEntry now raw conf true st).text
             endTime := (mkBaseEntry now raw conf true st).endTime
             timestamp := now
             isFinal := true }] := by
      unfold processFinal
      dsimp only
      rw [if_pos hm]
      split
      · exact hres.2.1
      · exact hres.2.1
    refine ⟨htr, ?_⟩
    rw [htr]
    simp only [List.length_append, List.length_dropLast, List.length_cons,
      List.length_nil]
    omega
  · intro hm
    have hres := stabInv_appendDisplay now (mkBaseEntry now raw conf true st) rfl
      { st with pendingInterim := none, interimTimer := none } (by simp)
    unfold processFinal
    dsimp only
    rw [if_neg (by simp [hm])]
    split
    · exact hres.2.1
    · exact hres.2.1

instance (st : CaptionsState) : Decidable (StabInv st) :=
  inferInstanceAs (Decidable (_ ∧ _))

/-- A concrete final transcript entry used by witness instances. -/
def sampleFinalEntry : TranscriptEntry :=
  { text := "hello".toList
    timestamp := 0
    startTime := 0
    endTime := 0
    confidence := none
    isFinal := true
    speaker := "User".toList }

/-- A concrete stabilizer state holding one final entry, consistent with the
stabilizer invariant. -/
def sampleStabState : CaptionsState :=
  { isListening := true
    transcript := [sampleFinalEntry]
    currentSession := none
    error := none
    beginTime := some 50
    interimTimer := none
    pendingInterim := none
    lastFinal := some sampleFinalEntry }

/-- Witness for C1: a short final result arriving 50ms after the last final
of the sample state merges in place and the display length does not grow. -/
theorem final_merge_decision_witness :
    (processFinal 100 "ok".toList none sampleStabState).transcript =
      (sampleStabState.transcript.filter (fun e => e.isFinal)).dropLast ++
        [{ sampleFinalEntry with
           text := mergedText sampleFinalEntry.text
             (mkBaseEntry 100 "ok".toList none true sampleStabState).text
           endTime := (mkBaseEntry 100 "ok".toList none true sampleStabState).endTime
           timestamp := 100
           isFinal := true }] ∧
    (processFinal 100 "ok".toList none sampleStabState).transcript.length ≤
      sampleStabState.transcript.length :=
  (final_merge_decision.2 sampleStabState 100 ("ok".toList) none
      (by decide)).2.1 sampleFinalEntry (by decide) (by decide)

/-! ## Theorem: interim results and the display shape (C2) -/

/-- A run consisting only of interim results and time passage (no final
result slots). -/
def interimOnly (evs : List CaptionEvent) : Bool :=
  evs.all (fun ev => match ev with
    | .result _ _ _ fin => !fin
    | .tick _ => true)

/-- Every display entry before the tail is final (hence at most one
non-final entry exists and it can only sit at the tail). -/
def tailAllFinal (l : List TranscriptEntry) : Bool :=
  l.dropLast.all (fun e => e.isFinal)

theorem session_elapse (t : Int) (st : CaptionsState) :
    (elapse t st).1.currentSession = st.currentSession := by
  unfold elapse fireInterimTimer
  cases st.interimTimer with
  | none => rfl
  | some d =>
    by_cases hd : d ≤ t
    · simp only [hd, if_true]
      cases st.pendingInterim <;> rfl
    · simp [hd]

theorem session_processInterim (now : Int) (raw : List Char) (conf : Option ℚ)
    (st : CaptionsState) :
    (processInterim now raw conf st).currentSession = st.currentSession := by
  unfold processInterim
  cases st.interimTimer <;> rfl

theorem tailAllFinal_filter (l : List TranscriptEntry) :
    tailAllFinal (l.filter (fun e => e.isFinal) ++ [x]) = true := by
  unfold tailAllFinal
  rw [List.dropLast_concat, List.all_eq_true]
  intro a ha
  exact (List.mem_filter.1 ha).2

theorem tailAllFinal_elapse (t : Int) (st : CaptionsState)
    (h : tailAllFinal st.transcript = true) :
    tailAllFinal (elapse t st).1.transcript = true := by
  unfold elapse fireInterimTimer
  cases st.interimTimer with
  | none => exact h
  | some d =>
    by_cases hd : d ≤ t
    · simp only [hd, if_true]
      cases st.pendingInterim with
      | none => exact h
      | some e0 => exact tailAllFinal_filter st.transcript
    · simpa [hd] using h

theorem tailAllFinal_mergeDisplay (now : Int) (fe : TranscriptEntry)
    (st : CaptionsState) (h : tailAllFinal st.transcript = true) :
    tailAllFinal (mergeDisplay now fe st).transcript = true := by
  unfold mergeDisplay
  dsimp only
  split
  · split
    · exact h
    · unfold tailAllFinal
      rw [List.dropLast_concat, List.all_eq_true]
      intro a ha
      exact (List.mem_filter.1 (List.dropLast_subset _ ha)).2
  · exact tailAllFinal_filter _

theorem tailAllFinal_step (e : CaptionEvent) (st : CaptionsState)
    (h : tailAllFinal st.transcript = true) :
    tailAllFinal (stepCaptions e st).1.transcript = true := by
  cases e with
  | tick t => exact tailAllFinal_elapse t st h
  | result t txt conf fin =>
    unfold stepCaptions
    dsimp only
    have helapse := tailAllFinal_elapse t st h
    cases fin with
    | false =>
      simp only [Bool.false_eq_true, if_false]
      unfold processInterim
      cases (elapse t st).1.interimTimer <;> exact helapse
    | true =>
      simp only [if_true]
      unfold processFinal
      dsimp only
      split
      · split
        · exact tailAllFinal_mergeDisplay _ _ _ helapse
        · exact tailAllFinal_mergeDisplay _ _ _ helapse
      · split
        · exact tailAllFinal_filter _
        · exact tailAllFinal_filter _

/-- C2: interim (non-final) results are never written to the persisted
session — a run consisting only of interim results and time passage leaves
`currentSession` (hence the persisted transcript, empty for a fresh
session) unchanged — and the display sequence always keeps every entry
before the tail final, so at most one non-final entry exists and it sits at
the tail. -/
theorem interim_never_persisted :
    (∀ (evs : List CaptionEvent) (st : CaptionsState), interimOnly evs = true →
      (runCaptions evs st).1.currentSession = st.currentSession) ∧
    (∀ (evs : List CaptionEvent) (st : CaptionsState),
      tailAllFinal st.transcript = true →
      tailAllFinal (runCaptions evs st).1.transcript = true) := by
  constructor
  · intro evs
    induction evs with
    | nil => intro st _; rfl
    | cons e rest ih =>
      intro st hio
      rw [interimOnly, List.all_cons, Bool.and_eq_true] at hio
      have hstep : (stepCaptions e st).1.currentSession = st.currentSession := by
        cases e with
        | tick t => exact session_elapse t st
        | result t txt conf fin =>
          cases fin with
          | true => simp at hio
          | false =>
            unfold stepCaptions
            dsimp only
            rw [if_neg (by simp)]
            rw [session_processInterim, session_elapse]
      unfold runCaptions
      dsimp only
      rw [ih (stepCaptions e st).1 hio.2, hstep]
  · intro evs
    induction evs with
    | nil => intro st h; exact h
    | cons e rest ih =>
      intro st h
      unfold runCaptions
      dsimp only
      exact ih (stepCaptions e st).1 (tailAllFinal_step e st h)

/-- A fresh session as created at time 0. -/
def sampleSession : CaptionSession := mkNewSession 0 "en-US".toList

/-- A freshly started captions state: empty display, fresh session. -/
def sampleFreshState : CaptionsState :=
  { isListening := true
    transcript := []
    currentSession := some sampleSession
    error := none
    beginTime := some 0
    interimTimer := none
    pendingInterim := none
    lastFinal := none }

/-- Witness for C2: a concrete interim-only run leaves the fresh session
untouched and the display well shaped. -/
theorem interim_never_persisted_witness :
    (runCaptions
      [CaptionEvent.result 10 "he".toList none false,
       CaptionEvent.result 60 "hel".toList none false,
       CaptionEvent.tick 300] sampleFreshState).1.currentSession =
      sampleFreshState.currentSession ∧
    tailAllFinal (runCaptions
      [CaptionEvent.result 10 "he".toList none false,
       CaptionEvent.result 60 "hel".toList none false,
       CaptionEvent.tick 300] sampleFreshState).1.transcript = true :=
  ⟨interim_never_persisted.1
      [CaptionEvent.result 10 "he".toList none false,
       CaptionEvent.result 60 "hel".toList none false,
       CaptionEvent.tick 300] sampleFreshState (by decide),
   interim_never_persisted.2
      [CaptionEvent.result 10 "he".toList none false,
       CaptionEvent.result 60 "hel".toList none false,
       CaptionEvent.tick 300] sampleFreshState (by decide)⟩

/-! ## Theorems: interim throttling (C3) -/

/-- C3 counterexample: three interim results at 0ms, 100ms, 200ms — each
within 120ms of the previous one — produce two published interim display
updates, and the first of them carries the text of the second interim, not that of the
last one: the 120ms timer is a throttle that fires mid-run and is not
rescheduled by later interims. -/
theorem debounce_claim_counterexample :
    ((100:Int) - 0 ≤ 120 ∧ (200:Int) - 100 ≤ 120) ∧
    (runCaptions
      [CaptionEvent.result 0 "a".toList none false,
       CaptionEvent.result 100 "b".toList none false,
       CaptionEvent.result 200 "c".toList none false,
       CaptionEvent.tick 400] sampleFreshState).2 =
      ["b".toList, "c".toList] ∧
    ¬ ((runCaptions
      [CaptionEvent.result 0 "a".toList none false,
       CaptionEvent.result 100 "b".toList none false,
       CaptionEvent.result 200 "c".toList none false,
       CaptionEvent.tick 400] sampleFreshState).2.length ≤ 1) := by
  decide

theorem runCaptions_cons (e : CaptionEvent) (evs : List CaptionEvent)
    (st : CaptionsState) :
    runCaptions (e :: evs) st =
      ((runCaptions evs (stepCaptions e st).1).1,
        (stepCaptions e st).2 ++ (runCaptions evs (stepCaptions e st).1).2) := rfl

theorem runCaptions_nil (st : CaptionsState) : runCaptions [] st = (st, []) := rfl

theorem stepCaptions_tick (t : Int) (st : CaptionsState) :
    stepCaptions (CaptionEvent.tick t) st = elapse t st := rfl

theorem stepCaptions_interim (t : Int) (txt : List Char) (conf : Option ℚ)
    (st : CaptionsState) :
    stepCaptions (CaptionEvent.result t txt conf false) st =
      (processInterim t txt conf (elapse t st).1, (elapse t st).2) := rfl

theorem elapse_of_none (t : Int) (st : CaptionsState)
    (h : st.interimTimer = none) : elapse t st = (st, []) := by
  unfold elapse
  rw [h]

theorem elapse_of_early (t : Int) (st : CaptionsState) (d : Int)
    (h : st.interimTimer = some d) (hlt : ¬ d ≤ t) : elapse t st = (st, []) := by
  unfold elapse
  rw [h]
  simp [hlt]

theorem elapse_of_due (t : Int) (st : CaptionsState) (d : Int)
    (h : st.interimTimer = some d) (hle : d ≤ t) :
    elapse t st = fireInterimTimer st := by
  unfold elapse
  rw [h]
  simp [hle]

theorem fireInterimTimer_pub (st : CaptionsState) (e0 : TranscriptEntry)
    (hp : st.pendingInterim = some e0) : (fireInterimTimer st).2 = [e0.text] := by
  unfold fireInterimTimer
  rw [hp]

theorem processInterim_of_some (now : Int) (raw : List Char) (conf : Option ℚ)
    (st : CaptionsState) (d : Int) (h : st.interimTimer = some d) :
    processInterim now raw conf st =
      { st with pendingInterim := some (mkBaseEntry now raw conf false st) } := by
  unfold processInterim
  dsimp only
  rw [h]

theorem throttle_run_aux (d T : Int) (hT : d ≤ T) :
    ∀ (l : List (Int × List Char)) (st : CaptionsState) (e0 : TranscriptEntry),
      st.interimTimer = some d →
      st.pendingInterim = some e0 →
      (∀ p ∈ l, p.1 < d) →
      (runCaptions (l.map (fun p => CaptionEvent.result p.1 p.2 none false) ++
          [CaptionEvent.tick T]) st).2 =
        [(l.getLast?.map (fun p => trimWS p.2)).getD e0.text] := by
  intro l
  induction l with
  | nil =>
    intro st e0 ht hp _
    simp only [List.map_nil, List.nil_append]
    rw [runCaptions_cons, stepCaptions_tick, elapse_of_due T st d ht hT,
      runCaptions_nil]
    dsimp only
    rw [fireInterimTimer_pub st e0 hp]
    simp
  | cons p rest ih =>
    intro st e0 ht hp hlt
    have hlt1 : p.1 < d := hlt p (List.mem_cons_self p rest)
    rw [List.map_cons, List.cons_append, runCaptions_cons, stepCaptions_interim,
      elapse_of_early p.1 st d ht (not_le.mpr hlt1)]
    dsimp only
    have hproc := processInterim_of_some p.1 p.2 none st d ht
    have hint : (processInterim p.1 p.2 none st).interimTimer = some d := by
      rw [hproc]
      exact ht
    have hpend : (processInterim p.1 p.2 none st).pendingInterim =
        some (mkBaseEntry p.1 p.2 none false st) := by
      rw [hproc]
    rw [ih (processInterim p.1 p.2 none st) (mkBaseEntry p.1 p.2 none false st)
      hint hpend (fun q hq => hlt q (List.mem_cons_of_mem p hq))]
    cases hrest : rest with
    | nil => simp [mkBaseEntry]
    | cons r0 rest2 =>
      rw [List.getLast?_cons_cons]
      cases hc : (r0 :: rest2).getLast? with
      | none => simp at hc
      | some q => simp

theorem processInterim_of_none (now : Int) (raw : List Char) (conf : Option ℚ)
    (st : CaptionsState) (h : st.interimTimer = none) :
    processInterim now raw conf st =
      { st with
        pendingInterim := some (mkBaseEntry now raw conf false st)
        interimTimer := some (now + 120) } := by
  unfold processInterim
  dsimp only
  rw [h]

/-- C3 amended: the 120ms interim machinery is a throttle, not a debounce —
at most one timer is ever in flight, a further interim result while a timer
is pending leaves the deadline of the timer unchanged (it neither stacks nor
reschedules) and only overwrites the buffered entry, and a run of interim
results that all arrive strictly before the pending deadline of the first
one produces exactly one published interim display update carrying the text of the last
interim once the deadline passes. -/
theorem interim_throttle_amended :
    (∀ (now : Int) (raw : List Char) (conf : Option ℚ) (st : CaptionsState)
        (d : Int), st.interimTimer = some d →
      (processInterim now raw conf st).interimTimer = some d ∧
      (processInterim now raw conf st).pendingInterim =
        some (mkBaseEntry now raw conf false st)) ∧
    (∀ (t0 : Int) (raw0 : List Char) (c0 : Option ℚ)
        (l : List (Int × List Char)) (T : Int) (st : CaptionsState),
      st.interimTimer = none →
      (∀ p ∈ l, p.1 < t0 + 120) →
      t0 + 120 ≤ T →
      (runCaptions (CaptionEvent.result t0 raw0 c0 false ::
          (l.map (fun p => CaptionEvent.result p.1 p.2 none false) ++
            [CaptionEvent.tick T])) st).2 =
        [trimWS (l.getLastD (t0, raw0)).2]) := by
  constructor
  · intro now raw conf st d h
    rw [processInterim_of_some now raw conf st d h]
    exact ⟨h, rfl⟩
  · intro t0 raw0 c0 l T st ht hl hT
    rw [runCaptions_cons, stepCaptions_interim, elapse_of_none t0 st ht,
      processInterim_of_none t0 raw0 c0 st ht]
    dsimp only
    rw [throttle_run_aux (t0 + 120) T hT l _ (mkBaseEntry t0 raw0 c0 false st)
      rfl rfl hl]
    simp only [List.nil_append, List.getLastD_eq_getLast?]
    cases hc : l.getLast? with
    | none => simp [mkBaseEntry]
    | some q => simp

/-- Witness for C3 (amended): a pending timer at deadline 120 is untouched
by a new interim at 50ms, and the run 0ms, 50ms flushed at 200ms publishes
exactly the 50ms text. -/
theorem interim_throttle_amended_witness :
    (processInterim 50 "y".toList none
        { sampleFreshState with
          interimTimer := some 120
          pendingInterim := some (mkBaseEntry 0 "x".toList none false sampleFreshState) }).interimTimer
      = some 120 ∧
    (runCaptions (CaptionEvent.result 0 "x".toList none false ::
        ([((50:Int), "y".toList)].map
          (fun p => CaptionEvent.result p.1 p.2 none false) ++
          [CaptionEvent.tick 200])) sampleFreshState).2 =
      [trimWS ([((50:Int), "y".toList)].getLastD (0, "x".toList)).2] :=
  ⟨(interim_throttle_amended.1 50 ("y".toList) none
      { sampleFreshState with
        interimTimer := some 120
        pendingInterim := some (mkBaseEntry 0 "x".toList none false sampleFreshState) }
      120 rfl).1,
   interim_throttle_amended.2 0 ("x".toList) none [((50:Int), "y".toList)] 200
      sampleFreshState rfl (by decide) (by decide)⟩

/-! ## Theorems: startListening (C4) -/

/-- A stabilizer state carrying leftover throttle/merge refs from a previous
session, used to exhibit that `startListening` does not reset them. -/
def sampleLeftoverState : CaptionsState :=
  { isListening := false
    transcript := [sampleFinalEntry]
    currentSession := none
    error := none
    beginTime := some 0
    interimTimer := some 500
    pendingInterim := some (mkBaseEntry 0 "le".toList none false sampleFreshState)
    lastFinal := some sampleFinalEntry }

/-- C4 counterexample: in a secure, initialized, permitted environment,
`startListening` creates the new session and clears the live view but does
NOT reset the stabilizer state — the interim buffer, the pending timer and
the last-final reference all survive, where the claim requires them
cleared. -/
theorem start_session_reset_counterexample :
    (startListening
        { initialized := true, secureContext := true,
          permissionDenied := false, startError := none }
        1000 "en-US".toList sampleLeftoverState).currentSession =
      some (mkNewSession 1000 "en-US".toList) ∧
    (startListening
        { initialized := true, secureContext := true,
          permissionDenied := false, startError := none }
        1000 "en-US".toList sampleLeftoverState).transcript = [] ∧
    ¬ ((startListening
        { initialized := true, secureContext := true,
          permissionDenied := false, startError := none }
        1000 "en-US".toList sampleLeftoverState).lastFinal = none) ∧
    ¬ ((startListening
        { initialized := true, secureContext := true,
          permissionDenied := false, startError := none }
        1000 "en-US".toList sampleLeftoverState).interimTimer = none) ∧
    ¬ ((startListening
        { initialized := true, secureContext := true,
          permissionDenied := false, startError := none }
        1000 "en-US".toList sampleLeftoverState).pendingInterim = none) := by
  decide

/-- C4 amended: from an idle state, `startListening` fails on a missing
recognizer, an insecure context or a denied microphone permission — the
resulting state is exactly the previous one with the corresponding error
reported, so no partial session is created and the live view and stabilizer
state are untouched; when those guards pass it installs a new session whose
id and name are derived from the current time and clears the live
transcript view, but leaves the stabilizer state (interim buffer, pending
timer, last-final reference) unchanged rather than resetting it. -/
theorem start_session_amended :
    ∀ (env : StartEnv) (now : Int) (language : List Char) (st : CaptionsState),
      st.isListening = false →
      (env.initialized = false →
        startListening env now language st =
          { st with error := some CaptionError.notInitialized }) ∧
      (env.initialized = true → env.secureContext = false →
        startListening env now language st =
          { st with error := some CaptionError.insecureContext }) ∧
      (env.initialized = true → env.secureContext = true →
        env.permissionDenied = true →
        startListening env now language st =
          { st with error := some CaptionError.permissionDenied }) ∧
      (env.initialized = true → env.secureContext = true →
        env.permissionDenied = false →
        (startListening env now language st).currentSession =
          some (mkNewSession now language) ∧
        (startListening env now language st).transcript = [] ∧
        (startListening env now language st).pendingInterim = st.pendingInterim ∧
        (startListening env now language st).interimTimer = st.interimTimer ∧
        (startListening env now language st).lastFinal = st.lastFinal) := by
  intro env now language st hidle
  refine ⟨?_, ?_, ?_, ?_⟩
  · intro hinit
    unfold startListening
    rw [if_pos (by rw [hinit])]
  · intro hinit hsec
    unfold startListening
    rw [if_neg (by rw [hinit]; simp), if_neg (by rw [hidle]; simp),
      if_pos (by rw [hsec])]
  · intro hinit hsec hperm
    unfold startListening
    rw [if_neg (by rw [hinit]; simp), if_neg (by rw [hidle]; simp),
      if_neg (by rw [hsec]; simp), if_pos (by rw [hperm])]
  · intro hinit hsec hperm
    unfold startListening
    rw [if_neg (by rw [hinit]; simp), if_neg (by rw [hidle]; simp),
      if_neg (by rw [hsec]; simp), if_neg (by rw [hperm]; simp)]
    cases env.startError with
    | none => exact ⟨rfl, rfl, rfl, rfl, rfl⟩
    | some k => cases k <;> exact ⟨rfl, rfl, rfl, rfl, rfl⟩

/-- Witness for C4 (amended): the insecure-context failure turns the
leftover state into exactly itself with the insecure-context error, and the
success path from the same state keeps the leftover stabilizer refs. -/
theorem start_session_amended_witness :
    startListening
        { initialized := true, secureContext := false,
          permissionDenied := false, startError := none }
        1000 "en-US".toList sampleLeftoverState =
      { sampleLeftoverState with error := some CaptionError.insecureContext } ∧
    (startListening
        { initialized := true, secureContext := true,
          permissionDenied := false, startError := none }
        1000 "en-US".toList sampleLeftoverState).lastFinal =
      sampleLeftoverState.lastFinal :=
  ⟨(start_session_amended
      { initialized := true, secureContext := false,
        permissionDenied := false, startError := none }
      1000 ("en-US".toList) sampleLeftoverState rfl).2.1 rfl rfl,
   ((start_session_amended
      { initialized := true, secureContext := true,
        permissionDenied := false, startError := none }
      1000 ("en-US".toList) sampleLeftoverState rfl).2.2.2
      rfl rfl rfl).2.2.2.2⟩

/-! ## Theorems: batch summary / action items (C5) -/

/-- A non-final (interim) enhanced entry. -/
def sampleInterimEnhanced : EnhancedTranscriptEntry :=
  { text := "hel".toList
    timestamp := 0
    startTime := 0
    endTime := 0
    confidence := none
    isFinal := false
    speaker := "User".toList
    enhancedText := none
    nimConfidence := none
    processingStatus := .pending
    originalText := "hel".toList }

/-- A concrete NIM session wrapper. -/
def sampleNimSession : NimCaptionSession :=
  { id := "session_0".toList
    name := "Meeting 0".toList
    startTime := 0
    endTime := 0
    transcript := []
    language := "en-US".toList
    enhancedView := []
    summary := none
    actionItems := none
    nimProcessed := false
    enhancementSettings :=
      { enableNimEnhancement := true, enhanceOnFinal := true, contextAware := true } }

/-- C5 counterexample: with a session and a transcript holding a single
interim (non-final) entry there are no final entries, yet neither
`generateSummary` nor `extractActionItems` fails — each issues a remote call
whose payload is empty.  The guard checks only that the transcript has some
entry, not that a final entry exists. -/
theorem summary_guard_counterexample :
    ([sampleInterimEnhanced].filter (fun e => e.isFinal) = []) ∧
    generateSummaryRequest (some sampleNimSession) [sampleInterimEnhanced] =
      SummaryOutcome.call [] "summary".toList ∧
    extractActionItemsRequest (some sampleNimSession) [sampleInterimEnhanced] =
      SummaryOutcome.call [] "action-items".toList := by
  decide

/-- C5 amended: the batch summary and action-item requests concatenate
exactly the best-available text of the final entries (enhanced when present and
nonempty, else original) in order joined by newlines as the single remote
payload; they fail with the empty-transcript error exactly when there is no
current session or the transcript holds no entries at all — when entries
exist but none is final, a remote call is still made, with an empty
payload. -/
theorem summary_request_amended :
    ∀ (sess : Option NimCaptionSession) (tr : List EnhancedTranscriptEntry),
      (generateSummaryRequest sess tr = SummaryOutcome.noTranscript ↔
        (sess = none ∨ tr = [])) ∧
      (extractActionItemsRequest sess tr = SummaryOutcome.noTranscript ↔
        (sess = none ∨ tr = [])) ∧
      (sess ≠ none → tr ≠ [] →
        generateSummaryRequest sess tr =
          SummaryOutcome.call
            (List.intercalate ['\n'] ((tr.filter (fun e => e.isFinal)).map bestText))
            "summary".toList ∧
        extractActionItemsRequest sess tr =
          SummaryOutcome.call
            (List.intercalate ['\n'] ((tr.filter (fun e => e.isFinal)).map bestText))
            "action-items".toList) := by
  intro sess tr
  have hguard : (sess.isNone || tr.length == 0) = true ↔ (sess = none ∨ tr = []) := by
    simp [Option.isNone_iff_eq_none, List.length_eq_zero]
  refine ⟨?_, ?_, ?_⟩
  · unfold generateSummaryRequest
    split
    · rename_i hcond
      simp only [true_iff]
      exact hguard.mp hcond
    · rename_i hcond
      constructor
      · intro hc
        exact absurd hc (by simp)
      · intro hc
        exact absurd (hguard.mpr hc) hcond
  · unfold extractActionItemsRequest
    split
    · rename_i hcond
      simp only [true_iff]
      exact hguard.mp hcond
    · rename_i hcond
      constructor
      · intro hc
        exact absurd hc (by simp)
      · intro hc
        exact absurd (hguard.mpr hc) hcond
  · intro hs htr
    have hcond : ¬ ((sess.isNone || tr.length == 0) = true) := by
      intro hc
      rcases hguard.mp hc with h | h
      · exact hs h
      · exact htr h
    constructor
    · unfold generateSummaryRequest
      rw [if_neg hcond]
      rfl
    · unfold extractActionItemsRequest
      rw [if_neg hcond]
      rfl

/-- A final enhanced entry with an enhanced text. -/
def sampleFinalEnhanced : EnhancedTranscriptEntry :=
  { text := "hello world".toList
    timestamp := 0
    startTime := 0
    endTime := 0
    confidence := none
    isFinal := true
    speaker := "User".toList
    enhancedText := some ("Hello, world.".toList)
    nimConfidence := none
    processingStatus := .enhanced
    originalText := "hello world".toList }

/-- Witness for C5 (amended): one final entry with an enhanced text yields
one call whose payload is that text, for both request kinds. -/
theorem summary_request_amended_witness :
    generateSummaryRequest (some sampleNimSession) [sampleFinalEnhanced] =
      SummaryOutcome.call
        (List.intercalate ['\n']
          (([sampleFinalEnhanced].filter (fun e => e.isFinal)).map bestText))
        "summary".toList ∧
    extractActionItemsRequest (some sampleNimSession) [sampleFinalEnhanced] =
      SummaryOutcome.call
        (List.intercalate ['\n']
          (([sampleFinalEnhanced].filter (fun e => e.isFinal)).map bestText))
        "action-items".toList :=
  (summary_request_amended (some sampleNimSession) [sampleFinalEnhanced]).2.2
    (by simp) (by simp)

/-! ## Theorems: enhancement failure policy (C6) -/

theorem entryKey_update_status (e : EnhancedTranscriptEntry)
    (s : ProcessingStatus) :
    entryKey { e with processingStatus := s } = entryKey e := rfl

theorem setStatus_setStatus (id : List Char) (s1 s2 : ProcessingStatus)
    (l : List EnhancedTranscriptEntry) :
    setStatus id s2 (setStatus id s1 l) = setStatus id s2 l := by
  unfold setStatus
  rw [List.map_map]
  congr 1
  funext e
  by_cases h : entryKey e = id
  · simp [h, entryKey_update_status]
  · simp [h]

theorem filter_append_id (q : List (List Char)) (id : List Char)
    (h : id ∉ q) :
    (q ++ [id]).filter (fun x => decide (x ≠ id)) = q := by
  rw [List.filter_append]
  have h1 : q.filter (fun x => decide (x ≠ id)) = q :=
    List.filter_eq_self.mpr (fun a ha => decide_eq_true (fun hc => h (hc ▸ ha)))
  have h2 : [id].filter (fun x => decide (x ≠ id)) = [] := by simp
  rw [h1, h2, List.append_nil]

theorem mem_insertProcessed (ids : List (List Char)) (id : List Char) :
    id ∈ insertProcessed ids id := by
  unfold insertProcessed
  by_cases h : id ∈ ids <;> simp [h]

/-- C6 amended: when the remote enhancement call for an entry fails, the
processingStatus of the entry is set to `error`, no retry happens within the
call, and the in-flight queue is restored — but the composite id is NOT
left in the processed-id set: ids are added only on success, so after a
failure the entry is still absent from the set and the auto-enhancement
gate will select it again on the next pass. -/
theorem enhance_failure_amended :
    ∀ (ctx : Bool) (id : List Char) (st : NimState),
      id ∉ st.nimProcessingQueue →
      (enhanceCaption ctx EnhanceOutcome.failure id st).processedEntries =
        st.processedEntries ∧
      (enhanceCaption ctx EnhanceOutcome.failure id st).enhancedTranscript =
        setStatus id ProcessingStatus.error st.enhancedTranscript ∧
      (enhanceCaption ctx EnhanceOutcome.failure id st).nimProcessingQueue =
        st.nimProcessingQueue ∧
      (∀ (t : List Char) (e : EnhancedTranscriptEntry),
        st.enhancedTranscript.find? (fun e => decide (entryKey e = id)) = some e →
        id ∈ (enhanceCaption ctx (EnhanceOutcome.success t) id st).processedEntries) := by
  intro ctx id st hqm
  refine ⟨?_, ?_, ?_, ?_⟩
  · unfold enhanceCaption
    rw [if_neg hqm]
    dsimp only
    cases hf : st.enhancedTranscript.find? (fun e => decide (entryKey e = id)) with
    | none => rfl
    | some e0 => rfl
  · unfold enhanceCaption
    rw [if_neg hqm]
    dsimp only
    cases hf : st.enhancedTranscript.find? (fun e => decide (entryKey e = id)) with
    | none => rfl
    | some e0 => exact setStatus_setStatus id .processing .error st.enhancedTranscript
  · unfold enhanceCaption
    rw [if_neg hqm]
    dsimp only
    cases hf : st.enhancedTranscript.find? (fun e => decide (entryKey e = id)) with
    | none => exact filter_append_id st.nimProcessingQueue id hqm
    | some e0 => exact filter_append_id st.nimProcessingQueue id hqm
  · intro t e hf
    unfold enhanceCaption
    rw [if_neg hqm]
    dsimp only
    rw [hf]
    dsimp only
    cases ctx with
    | true =>
      simp only [if_true]
      exact mem_insertProcessed st.processedEntries id
    | false =>
      simp only [Bool.false_eq_true, if_false]
      exact mem_insertProcessed st.processedEntries id

/-- A final, pending, high-confidence enhanced entry eligible for
auto-enhancement. -/
def sampleEligibleEntry : EnhancedTranscriptEntry :=
  { text := "hello there".toList
    timestamp := 0
    startTime := 0
    endTime := 0
    confidence := some 1
    isFinal := true
    speaker := "User".toList
    enhancedText := none
    nimConfidence := none
    processingStatus := .pending
    originalText := "hello there".toList }

/-- A NIM state holding exactly the eligible entry, nothing processed or in
flight. -/
def sampleNimState : NimState :=
  { enhancedTranscript := [sampleEligibleEntry]
    processedEntries := []
    nimProcessingQueue := []
    contextCache := [] }

/-- C6 counterexample: after a failed enhancement of the only entry, its
status is `error`, but its composite id is NOT in the processed-id
set (ids are added only on success), and the auto-enhancement gate still
selects the entry — so it can be submitted for enhancement a second time. -/
theorem enhance_failure_counterexample :
    ¬ (entryKey sampleEligibleEntry ∈
        (enhanceCaption true EnhanceOutcome.failure
          (entryKey sampleEligibleEntry) sampleNimState).processedEntries) ∧
    (enhanceCaption true EnhanceOutcome.failure
        (entryKey sampleEligibleEntry) sampleNimState).enhancedTranscript =
      [{ sampleEligibleEntry with processingStatus := ProcessingStatus.error }] ∧
    eligibleForEnhancement 1
      (enhanceCaption true EnhanceOutcome.failure
        (entryKey sampleEligibleEntry) sampleNimState).processedEntries
      { sampleEligibleEntry with processingStatus := ProcessingStatus.error } = true := by
  decide

/-- Witness for C6 (amended): the failed call on the sample state leaves the
processed set empty and restores the queue. -/
theorem enhance_failure_amended_witness :
    (enhanceCaption true EnhanceOutcome.failure
        (entryKey sampleEligibleEntry) sampleNimState).processedEntries =
      sampleNimState.processedEntries ∧
    (enhanceCaption true EnhanceOutcome.failure
        (entryKey sampleEligibleEntry) sampleNimState).nimProcessingQueue =
      sampleNimState.nimProcessingQueue :=
  ⟨(enhance_failure_amended true (entryKey sampleEligibleEntry) sampleNimState
      (by decide)).1,
   (enhance_failure_amended true (entryKey sampleEligibleEntry) sampleNimState
      (by decide)).2.2.1⟩
